import Mathlib

/-!
Shallow embedding of the Go package `pdftohtml` (a command-line builder for
the Xpdf `pdftohtml` tool) and proofs about its builder, option and
execution functions.

Modelling conventions:
* Go `uint64` parameters are modelled as `Nat` (their decimal rendering via
  `strconv.FormatUint(_, 10)` agrees with `toString : Nat -> String`).
* Go `float64` parameters are modelled as `Rat` (every finite `float64`
  value is an exact rational; the concrete values appearing in the claims,
  such as `1.5`, are exactly representable).
* The Go `command` struct has a `path` field and an `args` slice; options
  are functions `*command -> unit` wrapped in closures, modelled here as
  pure functions `command -> command`.
* `Run` calls `exec.CommandContext(ctx, c.path, append(c.args, inpath, outdir)...)`
  and never assigns through the receiver, so it is modelled as returning the
  (unchanged) receiver state together with the `exec.Cmd` it builds.
-/

namespace Pdftohtml

/-- The Go struct `command`: the executable path and the accumulated
command-line arguments (`path string; args []string`). -/
structure command where
  path : String
  args : List String
deriving DecidableEq, Repr

/-- The Go type `option`: `type option func(*command)`, modelled as a pure
state transformer. -/
def option := command → command

/-- Models the Go standard library rounding used by `strconv.FormatFloat`:
round to the nearest integer, ties to even. -/
def roundTiesEven (x : ℚ) : ℤ :=
  let fl := ⌊x⌋
  let fr := x - fl
  if fr < 1/2 then fl
  else if 1/2 < fr then fl + 1
  else if fl % 2 = 0 then fl else fl + 1

/-- Normalisation loop for scientific notation: repeatedly scale `m` by 10
until it lies in `[1, 10)`, adjusting the decimal exponent.  The fuel bound
700 covers the full decimal-exponent range of finite `float64` values
(about 1e-324 .. 1.8e308). -/
def normalizeSci : ℕ → ℚ → ℤ → ℚ × ℤ
  | 0, m, e => (m, e)
  | fuel+1, m, e =>
    if 10 ≤ m then normalizeSci fuel (m / 10) (e + 1)
    else if m < 1 then normalizeSci fuel (m * 10) (e - 1)
    else (m, e)

/-- Two-digit zero-padded decimal rendering of an exponent magnitude, as in
the Go `e`-format exponent field (at least two digits). -/
def pad2 (n : ℕ) : String :=
  if n < 10 then "0" ++ toString n else toString n

/-- The exponent suffix of the Go `e` format: `e+dd` or `e-dd`. -/
def expPart (e : ℤ) : String :=
  if e < 0 then "e-" ++ pad2 (-e).toNat else "e+" ++ pad2 e.toNat

/-- Mantissa-and-exponent digits `d.dde±dd` of a positive rational, with the
mantissa rounded to 2 fractional digits; rounding up to `10.00` carries into
the exponent. -/
def sciDigits (q : ℚ) : String :=
  let p := normalizeSci 700 q 0
  let n := roundTiesEven (p.1 * 100)
  let r := if n = 1000 then ((100 : ℤ), p.2 + 1) else (n, p.2)
  let s := toString r.1.toNat
  s.take 1 ++ "." ++ s.drop 1 ++ expPart r.2

/-- Models the Go standard library call `strconv.FormatFloat(x, 'e', 2, 64)`
used by the zoom and vertical-stretch options: scientific notation
`-d.dde±dd` with exactly 2 fractional digits of mantissa, evaluated on the
exact rational value of the float. -/
def formatFloatE2 (q : ℚ) : String :=
  if q = 0 then "0.00e+00"
  else if q < 0 then "-" ++ sciDigits (-q)
  else sciDigits q

/-- `WithCustomPath`: sets a custom location for the executable; touches no
argument tokens. -/
def WithCustomPath (path : String) : option :=
  fun c => { c with path := path }

/-- `WithCustomConfig`: appends `-cfg` and the config path. -/
def WithCustomConfig (path : String) : option :=
  fun c => { c with args := c.args ++ ["-cfg", path] }

/-- `WithOutdirOverwrite`: appends `-overwrite`. -/
def WithOutdirOverwrite : option :=
  fun c => { c with args := c.args ++ ["-overwrite"] }

/-- `WithPageFrom`: appends `-f` and the decimal rendering of the page. -/
def WithPageFrom (page : ℕ) : option :=
  fun c => { c with args := c.args ++ ["-f", toString page] }

/-- `WithPageTo`: appends `-l` and the decimal rendering of the page. -/
def WithPageTo (page : ℕ) : option :=
  fun c => { c with args := c.args ++ ["-l", toString page] }

/-- `WithPageRange`: the Go body evaluates `WithPageFrom(from)` and
`WithPageTo(to)` as expressions and discards the two option values without
ever applying them to `c`, so the closure leaves the command untouched.
The discarded calls are kept here as `let` bindings to mirror the source. -/
def WithPageRange (pfrom pto : ℕ) : option :=
  fun c =>
    let _ := WithPageFrom pfrom
    let _ := WithPageTo pto
    c

/-- `WithInitialZoom`: appends `-z` and
`strconv.FormatFloat(zoom, 'e', 2, 64)`. -/
def WithInitialZoom (zoom : ℚ) : option :=
  fun c => { c with args := c.args ++ ["-z", formatFloatE2 zoom] }

/-- `WithResolution`: appends `-r` and the decimal rendering of the DPI. -/
def WithResolution (dpi : ℕ) : option :=
  fun c => { c with args := c.args ++ ["-r", toString dpi] }

/-- `WithVerticalStretch`: appends `-vstretch` and
`strconv.FormatFloat(factor, 'e', 2, 64)`. -/
def WithVerticalStretch (factor : ℚ) : option :=
  fun c => { c with args := c.args ++ ["-vstretch", formatFloatE2 factor] }

/-- `WithEmbededBackground`: appends `-embedbackground`. -/
def WithEmbededBackground : option :=
  fun c => { c with args := c.args ++ ["-embedbackground"] }

/-- `WithNoFonts`: appends `-nofonts`. -/
def WithNoFonts : option :=
  fun c => { c with args := c.args ++ ["-nofonts"] }

/-- `WithEmbededFonts`: appends `-embedfonts`. -/
def WithEmbededFonts : option :=
  fun c => { c with args := c.args ++ ["-embedfonts"] }

/-- `WithNoInvisibleText`: appends `-skipinvisible`. -/
def WithNoInvisibleText : option :=
  fun c => { c with args := c.args ++ ["-skipinvisible"] }

/-- `WithAllInvisibleText`: appends `-allinvisible`. -/
def WithAllInvisibleText : option :=
  fun c => { c with args := c.args ++ ["-allinvisible"] }

/-- `WithFormFields`: appends `-formfields`. -/
def WithFormFields : option :=
  fun c => { c with args := c.args ++ ["-formfields"] }

/-- `WithMeta`: appends `-meta`. -/
def WithMeta : option :=
  fun c => { c with args := c.args ++ ["-meta"] }

/-- `WithModeTable`: appends `-table`. -/
def WithModeTable : option :=
  fun c => { c with args := c.args ++ ["-table"] }

/-- `WithOwnerPassword`: appends `-opw` and the password. -/
def WithOwnerPassword (password : String) : option :=
  fun c => { c with args := c.args ++ ["-opw", password] }

/-- `WithUserPassword`: appends `-upw` and the password. -/
def WithUserPassword (password : String) : option :=
  fun c => { c with args := c.args ++ ["-upw", password] }

/-- `NewCommand`: starts from the default executable path
`/usr/bin/pdftohtml` with no arguments and applies the options in order. -/
def NewCommand (opts : List option) : command :=
  opts.foldl (fun c opt => opt c) { path := "/usr/bin/pdftohtml", args := [] }

/-- The part of the Go standard library `exec.Cmd` that `Run` and `String`
populate: the resolved path and the full argument vector (whose first
element is the executable name, as `exec.Command` sets
`Args = [name] ++ arg`). -/
structure execCmd where
  path : String
  args : List String
deriving DecidableEq, Repr

/-- `Run`: builds
`exec.CommandContext(ctx, c.path, append(c.args, inpath, outdir)...)`.
The Go method never assigns through the receiver (`append` does not change
the `c.args` slice header), so the model returns the receiver state after
the call — the same `c` — together with the built `exec.Cmd`.  The launch
and wait of the subprocess are operating-system effects outside this
embedding. -/
def Run (c : command) (inpath outdir : String) : command × execCmd :=
  (c, { path := c.path, args := c.path :: (c.args ++ [inpath, outdir]) })

/-- `String`: builds
`exec.Command(c.path, append(c.args, "<inpath>", "<outdir>")...)` and
renders it with `exec.Cmd.String`, which writes the path and then each
argument preceded by a single space, with no quoting.  It is a pure
rendering: no process is created. -/
def commandString (c : command) : String :=
  (c.args ++ ["<inpath>", "<outdir>"]).foldl (fun b a => b ++ " " ++ a) c.path

/-- Enumeration of the option constructors the package exports, one
constructor per `With*` function, carrying the same parameters.
`metaTags` stands for `WithMeta`. -/
inductive opt where
  | customPath (path : String)
  | customConfig (path : String)
  | outdirOverwrite
  | pageFrom (page : ℕ)
  | pageTo (page : ℕ)
  | pageRange (pfrom pto : ℕ)
  | initialZoom (zoom : ℚ)
  | resolution (dpi : ℕ)
  | verticalStretch (factor : ℚ)
  | embededBackground
  | noFonts
  | embededFonts
  | noInvisibleText
  | allInvisibleText
  | formFields
  | metaTags
  | modeTable
  | ownerPassword (password : String)
  | userPassword (password : String)
deriving DecidableEq

/-- Dispatch from the enumeration to the corresponding source function. -/
def opt.interp : opt → option
  | .customPath p => WithCustomPath p
  | .customConfig p => WithCustomConfig p
  | .outdirOverwrite => WithOutdirOverwrite
  | .pageFrom n => WithPageFrom n
  | .pageTo n => WithPageTo n
  | .pageRange a b => WithPageRange a b
  | .initialZoom z => WithInitialZoom z
  | .resolution n => WithResolution n
  | .verticalStretch f => WithVerticalStretch f
  | .embededBackground => WithEmbededBackground
  | .noFonts => WithNoFonts
  | .embededFonts => WithEmbededFonts
  | .noInvisibleText => WithNoInvisibleText
  | .allInvisibleText => WithAllInvisibleText
  | .formFields => WithFormFields
  | .metaTags => WithMeta
  | .modeTable => WithModeTable
  | .ownerPassword p => WithOwnerPassword p
  | .userPassword p => WithUserPassword p

/-- The token group each option appends to the argument sequence, read off
the body of the corresponding `With*` function.  `customPath` appends
nothing (it only retargets the executable) and `pageRange` appends nothing
because its source body discards the two options it builds. -/
def opt.tokens : opt → List String
  | .customPath _ => []
  | .customConfig p => ["-cfg", p]
  | .outdirOverwrite => ["-overwrite"]
  | .pageFrom n => ["-f", toString n]
  | .pageTo n => ["-l", toString n]
  | .pageRange _ _ => []
  | .initialZoom z => ["-z", formatFloatE2 z]
  | .resolution n => ["-r", toString n]
  | .verticalStretch f => ["-vstretch", formatFloatE2 f]
  | .embededBackground => ["-embedbackground"]
  | .noFonts => ["-nofonts"]
  | .embededFonts => ["-embedfonts"]
  | .noInvisibleText => ["-skipinvisible"]
  | .allInvisibleText => ["-allinvisible"]
  | .formFields => ["-formfields"]
  | .metaTags => ["-meta"]
  | .modeTable => ["-table"]
  | .ownerPassword p => ["-opw", p]
  | .userPassword p => ["-upw", p]

/-- Effect of an option on the executable path: only `customPath`
replaces it; every other option leaves it alone. -/
def opt.pathEffect : opt → String → String
  | .customPath p, _ => p
  | _, q => q

/-- The path carried by a `customPath` option, `none` for all others. -/
def opt.customPathValue : opt → Option String
  | .customPath p => some p
  | _ => none

lemma opt.interp_args (o : opt) (c : command) :
    (o.interp c).args = c.args ++ o.tokens := by
  cases o <;>
    simp [opt.interp, opt.tokens, WithCustomPath, WithCustomConfig,
      WithOutdirOverwrite, WithPageFrom, WithPageTo, WithPageRange,
      WithInitialZoom, WithResolution, WithVerticalStretch,
      WithEmbededBackground, WithNoFonts, WithEmbededFonts,
      WithNoInvisibleText, WithAllInvisibleText, WithFormFields, WithMeta,
      WithModeTable, WithOwnerPassword, WithUserPassword]

lemma opt.interp_path (o : opt) (c : command) :
    (o.interp c).path = o.pathEffect c.path := by
  cases o <;>
    simp [opt.interp, opt.tokens, opt.pathEffect, WithCustomPath,
      WithCustomConfig, WithOutdirOverwrite, WithPageFrom, WithPageTo,
      WithPageRange, WithInitialZoom, WithResolution, WithVerticalStretch,
      WithEmbededBackground, WithNoFonts, WithEmbededFonts,
      WithNoInvisibleText, WithAllInvisibleText, WithFormFields, WithMeta,
      WithModeTable, WithOwnerPassword, WithUserPassword]

lemma foldl_interp_args (os : List opt) (c : command) :
    ((os.map opt.interp).foldl (fun c f => f c) c).args
      = c.args ++ (os.map opt.tokens).flatten := by
  induction os generalizing c with
  | nil => simp
  | cons o os ih => simp [ih, opt.interp_args, List.append_assoc]

lemma foldl_interp_path (os : List opt) (c : command) :
    ((os.map opt.interp).foldl (fun c f => f c) c).path
      = os.foldl (fun p o => o.pathEffect p) c.path := by
  induction os generalizing c with
  | nil => simp
  | cons o os ih => simp [ih, opt.interp_path]

lemma opt.pathEffect_eq_customPathValue (o : opt) (p : String) :
    o.pathEffect p = (o.customPathValue).getD p := by
  cases o <;> rfl

lemma getLast?_cons_getD (p q : String) (l : List String) :
    ((p :: l).getLast?).getD q = (l.getLast?).getD p := by
  induction l generalizing p q with
  | nil => rfl
  | cons a l ih => simp only [List.getLast?_cons_cons, ih]

lemma foldl_pathEffect (os : List opt) (p : String) :
    os.foldl (fun p o => o.pathEffect p) p
      = ((os.filterMap opt.customPathValue).getLast?).getD p := by
  induction os generalizing p with
  | nil => rfl
  | cons o os ih =>
    rw [List.foldl_cons, List.filterMap_cons, opt.pathEffect_eq_customPathValue]
    cases h : o.customPathValue with
    | none => exact ih p
    | some p2 =>
      show os.foldl (fun p o => o.pathEffect p) p2
        = ((p2 :: os.filterMap opt.customPathValue).getLast?).getD p
      rw [getLast?_cons_getD]; exact ih p2

lemma sjoin_shift (xs : List String) (p : String) :
    xs.foldl (· ++ ·) p = p ++ xs.foldl (· ++ ·) "" := by
  induction xs generalizing p with
  | nil => simp [String.append_empty]
  | cons x xs ih =>
    rw [List.foldl_cons, List.foldl_cons, ih (p ++ x), ih ("" ++ x)]
    rw [String.empty_append, String.append_assoc]

lemma sjoin_cons (x : String) (xs : List String) :
    String.join (x :: xs) = x ++ String.join xs := by
  show (x :: xs).foldl (· ++ ·) "" = x ++ xs.foldl (· ++ ·) ""
  rw [List.foldl_cons, sjoin_shift xs ("" ++ x), String.empty_append]

lemma cmd_fold (l : List String) (p : String) :
    l.foldl (fun b a => b ++ " " ++ a) p
      = p ++ String.join (l.map (fun a => " " ++ a)) := by
  induction l generalizing p with
  | nil => simp [String.join, String.append_empty]
  | cons a l ih =>
    rw [List.foldl_cons, ih, List.map_cons, sjoin_cons]
    rw [String.append_assoc, String.append_assoc, String.append_assoc " " a]

lemma formatFloatE2_three_halves : formatFloatE2 (3/2) = "1.50e+00" := by
  have hn : normalizeSci 700 (3/2) 0 = (3/2, 0) := by
    rw [show (700:ℕ) = 699+1 from rfl, normalizeSci]; norm_num
  have hr : roundTiesEven ((3:ℚ)/2 * 100) = 150 := by
    simp only [roundTiesEven]; norm_num
  rw [formatFloatE2, if_neg (by norm_num : ¬ ((3:ℚ)/2 = 0)),
    if_neg (by norm_num : ¬ ((3:ℚ)/2 < 0))]
  simp only [sciDigits, hn, hr]
  norm_num [expPart, pad2]
  rfl

/-- C1: the claim states that `WithPageRange(from, to)` produces exactly the
same argument sequence as `WithPageFrom(from)` followed by `WithPageTo(to)`.
The code violates it: the body of `WithPageRange` builds the two options and
discards them without applying them, so at `(from, to) = (3, 7)` the
convenience option appends nothing while the pair appends
`-f 3 -l 7`.  The claim (and the function's own doc comment) describes the
intended behaviour; the code is a slip. -/
theorem pageRange_discards_both_suboptions :
    (NewCommand [WithPageRange 3 7]).args = []
    ∧ (NewCommand [WithPageFrom 3, WithPageTo 7]).args = ["-f", "3", "-l", "7"]
    ∧ ¬ ((NewCommand [WithPageRange 3 7]).args
          = (NewCommand [WithPageFrom 3, WithPageTo 7]).args) := by
  refine ⟨rfl, rfl, ?_⟩
  decide

/-- C2: the claim states that `WithInitialZoom` and `WithVerticalStretch`
serialize the value in plain fixed-point form, e.g. `1.5` to the token
`"1.50"`.  The code violates it: both call
`strconv.FormatFloat(_, 'e', 2, 64)`, which renders `1.5` as the
scientific-notation token `"1.50e+00"`.  This theorem evaluates the code at
the failing input `1.5`. -/
theorem zoom_and_stretch_format_scientific :
    (NewCommand [WithInitialZoom (3/2)]).args = ["-z", "1.50e+00"]
    ∧ (NewCommand [WithVerticalStretch (3/2)]).args = ["-vstretch", "1.50e+00"]
    ∧ ¬ ((NewCommand [WithInitialZoom (3/2)]).args = ["-z", "1.50"]) := by
  have h1 : (NewCommand [WithInitialZoom (3/2)]).args = ["-z", "1.50e+00"] := by
    show [] ++ ["-z", formatFloatE2 (3/2)] = ["-z", "1.50e+00"]
    rw [formatFloatE2_three_halves]; rfl
  have h2 : (NewCommand [WithVerticalStretch (3/2)]).args
      = ["-vstretch", "1.50e+00"] := by
    show [] ++ ["-vstretch", formatFloatE2 (3/2)] = ["-vstretch", "1.50e+00"]
    rw [formatFloatE2_three_halves]; rfl
  refine ⟨h1, h2, ?_⟩
  rw [h1]; decide

/-- C3: the argument vector `Run` builds is the executable name followed by
the accumulated flags, with the input path and the output directory as the
final two tokens; the stored argument sequence of the command does not
contain the positionals before (or after) the call. -/
theorem run_positionals_always_last (c : command) (inpath outdir : String) :
    (Run c inpath outdir).2.args = c.path :: (c.args ++ [inpath, outdir])
    ∧ (Run c inpath outdir).2.args.take (c.args.length + 1) = c.path :: c.args
    ∧ (Run c inpath outdir).2.args.drop (c.args.length + 1) = [inpath, outdir]
    ∧ (Run c inpath outdir).1.args = c.args := by
  refine ⟨rfl, ?_, ?_, rfl⟩
  · show (c.path :: (c.args ++ [inpath, outdir])).take (c.args.length + 1)
      = c.path :: c.args
    rw [List.take_succ_cons, List.take_left]
  · show (c.path :: (c.args ++ [inpath, outdir])).drop (c.args.length + 1)
      = [inpath, outdir]
    rw [List.drop_succ_cons, List.drop_left]

/-- C4: for every sequence of options, the argument sequence built by
`NewCommand` is the in-order concatenation of the token groups each option
appends; values therefore stay adjacent to their flags inside each group. -/
theorem newCommand_args_ordered_concat (os : List opt) :
    (NewCommand (os.map opt.interp)).args = (os.map opt.tokens).flatten := by
  simp only [NewCommand]
  rw [foldl_interp_args]
  rfl

/-- C5: `Run` does not modify the command: the receiver state after the call
is the command itself, and two invocations with different positional paths
build argument vectors agreeing on the executable and flag prefix. -/
theorem run_leaves_command_unchanged (c : command) (i o i2 o2 : String) :
    (Run c i o).1 = c
    ∧ (Run c i o).2.path = c.path
    ∧ (Run c i o).2.args.take (c.args.length + 1)
        = (Run c i2 o2).2.args.take (c.args.length + 1) := by
  refine ⟨rfl, rfl, ?_⟩
  show (c.path :: (c.args ++ [i, o])).take (c.args.length + 1)
    = (c.path :: (c.args ++ [i2, o2])).take (c.args.length + 1)
  rw [List.take_succ_cons, List.take_succ_cons, List.take_left, List.take_left]

/-- C7: applying the same option twice appends its token group twice, with
no deduplication or overriding. -/
theorem option_twice_appends_twice (o : opt) (c : command) :
    (o.interp (o.interp c)).args = c.args ++ (o.tokens ++ o.tokens) := by
  rw [opt.interp_args, opt.interp_args, List.append_assoc]

/-- C8: without an executable-path override the path is the default
`/usr/bin/pdftohtml`; with overrides, the last `WithCustomPath` applied
wins, and the override touches no argument token. -/
theorem newCommand_path_default_or_last_custom (os : List opt) :
    (NewCommand (os.map opt.interp)).path
      = ((os.filterMap opt.customPathValue).getLast?).getD "/usr/bin/pdftohtml"
    ∧ (∀ (p : String) (c : command),
        (WithCustomPath p c).path = p ∧ (WithCustomPath p c).args = c.args) := by
  constructor
  · simp only [NewCommand]
    rw [foldl_interp_path, foldl_pathEffect]
  · intro p c
    exact ⟨rfl, rfl⟩

/-- C9: the rendering is the executable path followed by each accumulated
flag token in order and then the two placeholder tokens, space-separated;
on the overwrite-plus-embed-fonts configuration of the spec it is the
expected literal string.  `commandString` is a pure function: it creates no
process and leaves the command untouched. -/
theorem commandString_renders_flags_then_placeholders (c : command) :
    commandString c
      = c.path
        ++ String.join ((c.args ++ ["<inpath>", "<outdir>"]).map (fun a => " " ++ a))
    ∧ commandString (NewCommand [WithOutdirOverwrite, WithEmbededFonts])
      = "/usr/bin/pdftohtml -overwrite -embedfonts <inpath> <outdir>" := by
  refine ⟨cmd_fold _ _, ?_⟩
  rfl

/-- C10: each option touches exactly one field: every option's effect on
the argument sequence is to append its token group (so nothing already
accumulated is removed or reordered), the executable path is changed only
by `customPath`, and `customPath` has an empty token group. -/
theorem option_frame_effects (o : opt) (c : command) :
    (o.interp c).args = c.args ++ o.tokens
    ∧ (o.interp c).path = o.pathEffect c.path
    ∧ (∀ p, (opt.customPath p).tokens = [])
    ∧ (∀ p, (opt.customPath p).pathEffect c.path = p) := by
  exact ⟨opt.interp_args o c, opt.interp_path o c, fun p => rfl, fun p => rfl⟩

end Pdftohtml
